import Mathlib

/-!
Shallow embedding of the two puzzle programs of this repository
(`src/day1.rs` and `src/day2.rs`) together with proofs of the stated
properties.  Rust strings are modelled as `List Char`, `Option`/`Result`
as `Option`/`Except String`, and the machine integers `u32`/`usize` as
`Nat` (with the 64-bit overflow check of `usize::from_str` made explicit
where it matters).  Standard input is modelled as the list of line-read
results the `lines()` iterator would yield: each element is either a read
line (`Except.ok`) or an I/O failure (`Except.error`).
-/

set_option autoImplicit false

/-! ### Day 1: data model and scoring (`src/day1.rs`) -/

/-- Embeds Rust `char::to_digit(10)`: `some` of the numeric value for the
ASCII digits `'0'..'9'`, `none` for every other character. -/
def charToDigit? (ch : Char) : Option Nat :=
  if ch.isDigit then some (ch.toNat - 48) else none

/-- One calibration line (struct `Calibration { raw: String }`). -/
structure Calibration where
  raw : List Char
deriving DecidableEq

/-- Embeds `Calibration::from_raw`. -/
def Calibration.from_raw (raw : List Char) : Calibration :=
  ⟨raw⟩

/-- Embeds `Calibration::value`: first and last ASCII digit of the raw line,
combined as `10 * first + last`; `none` when the line has no digit. -/
def Calibration.value (c : Calibration) : Option Nat :=
  let nums := c.raw.filterMap charToDigit?
  nums.head?.bind fun first =>
    nums.getLast?.bind fun last =>
      some (10 * first + last)

/-- The token table of `<u32 as FromWord>::from_word`, in source order,
with each token paired with the digit the `match` at the end of
`from_word` assigns to it. -/
def digitNames : List (List Char × Nat) :=
  [("1".toList, 1), ("2".toList, 2), ("3".toList, 3), ("4".toList, 4), ("5".toList, 5),
   ("6".toList, 6), ("7".toList, 7), ("8".toList, 8), ("9".toList, 9),
   ("one".toList, 1), ("two".toList, 2), ("three".toList, 3), ("four".toList, 4),
   ("five".toList, 5), ("six".toList, 6), ("seven".toList, 7), ("eight".toList, 8),
   ("nine".toList, 9)]

/-- Embeds Rust `str::find(pattern)`: index of the first occurrence of
`name` as a contiguous substring of the second argument. -/
def findSub (name : List Char) : List Char → Option Nat
  | [] => if name.isPrefixOf ([] : List Char) then some 0 else none
  | c :: t => if name.isPrefixOf (c :: t) then some 0 else (findSub name t).map (· + 1)

/-- Embeds `Iterator::min_by` comparing the second component (the index):
the first pair attaining the minimal index, `none` on the empty list. -/
def minByIdx : List (Nat × Nat) → Option (Nat × Nat)
  | [] => none
  | p :: t =>
    match minByIdx t with
    | none => some p
    | some q => if p.2 ≤ q.2 then some p else some q

/-- The `(digit, index)` pairs produced by the `flat_map` inside
`from_word`: one pair per token of `digitNames` that occurs in `word`. -/
def wordPairs (names : List (List Char × Nat)) (word : List Char) : List (Nat × Nat) :=
  names.filterMap fun p => (findSub p.1 word).map fun idx => (p.2, idx)

/-- Embeds `<u32 as FromWord>::from_word`: the digit whose token occurs earliest
in `word` (ties cannot arise: no two tokens match at the same index). -/
def from_word (word : List Char) : Option Nat :=
  (minByIdx (wordPairs digitNames word)).map fun q => q.1

/-- The suffix at every character index, as produced by
`self.raw.char_indices().map(|(idx, _)| &self.raw[idx..])`. -/
def suffixes (w : List Char) : List (List Char) :=
  (List.range w.length).map fun idx => w.drop idx

/-- Embeds `Calibration::value2`: `from_word` of the first and of the last suffix
that contains a digit token, combined as `10 * first + last`. -/
def Calibration.value2 (c : Calibration) : Option Nat :=
  let nums := (suffixes c.raw).filterMap from_word
  nums.head?.bind fun first =>
    nums.getLast?.bind fun last =>
      some (10 * first + last)

/-- The `take_while` predicate of both `from_stdin` functions:
`line.as_deref().map(|line| !line.is_empty()).unwrap_or_default()`.
On an `Err` line the `unwrap_or_default()` yields `false`. -/
def takeLine (line : Except String (List Char)) : Bool :=
  match line with
  | Except.ok l => !l.isEmpty
  | Except.error _ => false

/-- Embeds `collect::<Result<Vec<_>>>`: all payloads in order, or the
first error. -/
def collectE {α : Type} : List (Except String α) → Except String (List α)
  | [] => Except.ok []
  | x :: t =>
    match x with
    | Except.error e => Except.error e
    | Except.ok b =>
      match collectE t with
      | Except.error e => Except.error e
      | Except.ok bs => Except.ok (b :: bs)

/-- The day-1 record collection (struct `Trebuchet`). -/
structure Trebuchet where
  calibrations : List Calibration
deriving DecidableEq

/-- Embeds `Trebuchet::from_stdin` on the modelled line stream. -/
def Trebuchet.from_stdin (stdin : List (Except String (List Char))) : Except String Trebuchet :=
  match collectE (stdin.takeWhile takeLine) with
  | Except.error e => Except.error e
  | Except.ok raws => Except.ok ⟨raws.map Calibration.from_raw⟩

/-- Embeds `Iterator::sum::<Option<u32>>`: the sum of the payloads, or
`none` as soon as one element is `none`. -/
def optSum : List (Option Nat) → Option Nat
  | [] => some 0
  | o :: t => o.bind fun x => (optSum t).bind fun s => some (x + s)

/-- Embeds `Trebuchet::value`. -/
def Trebuchet.value (t : Trebuchet) : Option Nat :=
  optSum (t.calibrations.map Calibration.value)

/-- Embeds `Trebuchet::value2`. -/
def Trebuchet.value2 (t : Trebuchet) : Option Nat :=
  optSum (t.calibrations.map Calibration.value2)

/-- Observable outcome of day 1's `main`: `Except.error` is the non-zero
exit caused by the `?` on `from_stdin`; `Except.ok (v, v2)` is the normal
zero exit after printing `Part one: {v:?}` and `Part two: {v2:?}`. -/
def day1_main (stdin : List (Except String (List Char))) : Except String (Option Nat × Option Nat) :=
  match Trebuchet.from_stdin stdin with
  | Except.error e => Except.error e
  | Except.ok t => Except.ok (t.value, t.value2)

/-! ### Day 1: specification-side definitions -/

/-- The digit assigned to table entry `p` when its token starts exactly
at the head of `w`. -/
def tokOf (w : List Char) (p : List Char × Nat) : Option Nat :=
  if p.1.isPrefixOf w then some p.2 else none

/-- The digit of the token (if any) that starts exactly at the head of
`w`, tested in the table order of `digitNames`. -/
def tokHere (w : List Char) : Option Nat :=
  digitNames.findSome? (tokOf w)

/-- Stated from the spec (§4.2): scan every character offset of the line
and record the digit of each token that starts there, in offset order. -/
def tokenScan : List Char → List Nat
  | [] => []
  | c :: t =>
    match tokHere (c :: t) with
    | some d => d :: tokenScan t
    | none => tokenScan t

/-- Stated from the spec (§4.2): combine the earliest-starting and the
latest-starting digit token of the line as `10 * first + last`. -/
def value2Spec (w : List Char) : Option Nat :=
  (tokenScan w).head?.bind fun first =>
    (tokenScan w).getLast?.bind fun last =>
      some (10 * first + last)

/-- Proof-side view: the digit of the earliest-starting token of `w`. -/
def firstTok : List Char → Option Nat
  | [] => none
  | c :: t =>
    match tokHere (c :: t) with
    | some d => some d
    | none => firstTok t

/-- Proof-side view: the digit of the latest-starting token of `w`. -/
def lastTok : List Char → Option Nat
  | [] => none
  | c :: t =>
    match lastTok t with
    | some d => some d
    | none => tokHere (c :: t)

/-! ### Day 2: data model (`src/day2.rs`) -/

/-- enum `Cube`: a tagged cube count. -/
inductive Cube where
  | Red (n : Nat)
  | Green (n : Nat)
  | Blue (n : Nat)
deriving DecidableEq

/-- struct `CubeSet`. -/
structure CubeSet where
  cubes : List Cube
deriving DecidableEq

/-- struct `Game`. -/
structure Game where
  id : Nat
  cube_sets : List CubeSet
deriving DecidableEq

/-! ### Day 2: parsing -/

/-- First occurrence of `sep` in the second argument, split as the part
before the match and the part after it (helper for `str::split`). -/
def splitFirst (sep : List Char) : List Char → Option (List Char × List Char)
  | [] => none
  | c :: t =>
    if sep.isPrefixOf (c :: t) then some ([], (c :: t).drop sep.length)
    else (splitFirst sep t).map fun p => (c :: p.1, p.2)

/-- Fuelled worker for `strSplit`; the fuel is an embedding artifact that
bounds the number of pieces and is always supplied large enough. -/
def strSplitF : Nat → List Char → List Char → List (List Char)
  | 0, _, w => [w]
  | fuel + 1, sep, w =>
    match splitFirst sep w with
    | none => [w]
    | some (pre, rest) => pre :: strSplitF fuel sep rest

/-- Embeds Rust `str::split(sep)` for a non-empty separator: the pieces
between consecutive non-overlapping occurrences of `sep`, scanning left
to right; always at least one (possibly empty) piece. -/
def strSplit (sep w : List Char) : List (List Char) :=
  strSplitF (w.length + 1) sep w

/-- Embeds `usize::from_str` on a 64-bit target: an optional leading `+`,
then one or more ASCII digits, rejected on overflow of `usize`. -/
def parseUsize (w : List Char) : Except String Nat :=
  let digits := match w with
    | '+' :: rest => rest
    | _ => w
  if digits.isEmpty then Except.error "cannot parse integer from empty string"
  else if digits.all Char.isDigit then
    let n := digits.foldl (fun acc ch => 10 * acc + (ch.toNat - 48)) 0
    if n < 2 ^ 64 then Except.ok n
    else Except.error "number too large to fit in target type"
  else Except.error "invalid digit found in string"

/-- Embeds `<Cube as FromStr>::from_str`: `"<quantity> <color>"`, written as the
explicit match chain the `?`/`ok_or_else` combinators denote. -/
def Cube.from_str (cube : List Char) : Except String Cube :=
  let pieces := strSplit [' '] cube
  match pieces.head? with
  | none => Except.error "Missing quantity of cube(s)!"
  | some q =>
    match parseUsize q with
    | Except.error e => Except.error e
    | Except.ok quantity =>
      match (pieces.drop 1).head? with
      | none => Except.error "Missing cube color!"
      | some color =>
        if color = "red".toList then Except.ok (Cube.Red quantity)
        else if color = "green".toList then Except.ok (Cube.Green quantity)
        else if color = "blue".toList then Except.ok (Cube.Blue quantity)
        else Except.error "Unknown cube color!"

/-- Embeds `<CubeSet as FromStr>::from_str`: `", "`-separated cubes, first error
aborting the whole set. -/
def CubeSet.from_str (cube_set : List Char) : Except String CubeSet :=
  match collectE ((strSplit (", ".toList) cube_set).map Cube.from_str) with
  | Except.error e => Except.error e
  | Except.ok cubes => Except.ok ⟨cubes⟩

/-- The id token of a game line: last `' '`-separated token of the text
before the first `": "` (this is `game_split.next().and_then(|game|
game.split(' ').last())` in the source). -/
def gameIdTok (game : List Char) : Option (List Char) :=
  (strSplit (": ".toList) game).head?.bind fun g => (strSplit [' '] g).getLast?

/-- The revealed-cubes section of a game line: the second `": "`-piece
(this is the second `game_split.next()` in the source). -/
def gameRest (game : List Char) : Option (List Char) :=
  ((strSplit (": ".toList) game).drop 1).head?

/-- Embeds `<Game as FromStr>::from_str`: id token parsed as `usize`, then the
`"; "`-separated cube sets, first error aborting the record. -/
def Game.from_str (game : List Char) : Except String Game :=
  match gameIdTok game with
  | none => Except.error "Missing game ID!"
  | some tok =>
    match parseUsize tok with
    | Except.error e => Except.error e
    | Except.ok id =>
      match gameRest game with
      | none => Except.error "Missing game revealed cubes!"
      | some rest =>
        match collectE ((strSplit ("; ".toList) rest).map CubeSet.from_str) with
        | Except.error e => Except.error e
        | Except.ok cube_sets => Except.ok ⟨id, cube_sets⟩

/-- Embeds `Game::from_stdin` on the modelled line stream. -/
def Game.from_stdin (stdin : List (Except String (List Char))) : Except String (List Game) :=
  match collectE (stdin.takeWhile takeLine) with
  | Except.error e => Except.error e
  | Except.ok raws => collectE (raws.map Game.from_str)

/-! ### Day 2: feasibility and aggregation -/

/-- Embeds `Cube::is_possible`: the if-let chain comparing this draw against the
capacity cube of the same color. -/
def Cube.is_possible (self : Cube) (cubes : Cube × Cube × Cube) : Bool :=
  match self, cubes.1 with
  | Cube.Red a, Cube.Red cap => decide (a ≤ cap)
  | _, _ =>
    match self, cubes.2.1 with
    | Cube.Green a, Cube.Green cap => decide (a ≤ cap)
    | _, _ =>
      match self, cubes.2.2 with
      | Cube.Blue a, Cube.Blue cap => decide (a ≤ cap)
      | _, _ => false

/-- Embeds `CubeSet::is_possible`. -/
def CubeSet.is_possible (self : CubeSet) (cubes : Cube × Cube × Cube) : Bool :=
  self.cubes.all fun cube => cube.is_possible cubes

/-- Embeds `Game::is_possible`. -/
def Game.is_possible (self : Game) (cubes : Cube × Cube × Cube) : Bool :=
  self.cube_sets.all fun cube_set => cube_set.is_possible cubes

/-- Embeds `part_one`: sum of the ids of the games possible under the fixed
capacity triple. -/
def part_one (games : List Game) : Nat :=
  ((games.filter fun game =>
      game.is_possible (Cube.Red 12, Cube.Green 13, Cube.Blue 14)).map Game.id).sum

/-- Observable outcome of day 2's `main`: `Except.error` is the non-zero
exit, `Except.ok n` the normal exit after printing `Part one: {n}`. -/
def day2_main (stdin : List (Except String (List Char))) : Except String Nat :=
  match Game.from_stdin stdin with
  | Except.error e => Except.error e
  | Except.ok games => Except.ok (part_one games)

/-! ### Day 2: specification-side definitions -/

/-- The count carried by a cube draw. -/
def cubeCount : Cube → Nat
  | Cube.Red n => n
  | Cube.Green n => n
  | Cube.Blue n => n

/-- The fixed capacity of a draw's own color under the triple
(Red 12, Green 13, Blue 14). -/
def cubeCap : Cube → Nat
  | Cube.Red _ => 12
  | Cube.Green _ => 13
  | Cube.Blue _ => 14

/-- Whether an `Except` value is a success. -/
def isOkB {α : Type} : Except String α → Bool
  | Except.ok _ => true
  | Except.error _ => false

/-- Whether a color token is one of the three known colors. -/
def colorOk (color : List Char) : Bool :=
  decide (color = "red".toList) || decide (color = "green".toList) ||
    decide (color = "blue".toList)

/-- A cube fragment exhibits a parse failure: its quantity token fails to
parse, or its color token is missing or unknown. -/
def cubeFails (cube : List Char) : Bool :=
  let pieces := strSplit [' '] cube
  (match pieces.head? with
   | none => true
   | some q => !isOkB (parseUsize q)) ||
  (match (pieces.drop 1).head? with
   | none => true
   | some color => !colorOk color)

/-- A game record exhibits a parse failure at some level: missing or
malformed id token, missing revealed-cubes section, or a failing cube
fragment inside some cube set. -/
def gameFails (game : List Char) : Bool :=
  (match gameIdTok game with
   | none => true
   | some tok => !isOkB (parseUsize tok)) ||
  (match gameRest game with
   | none => true
   | some rest =>
     (strSplit ("; ".toList) rest).any fun cs =>
       (strSplit (", ".toList) cs).any cubeFails)

/-! ### Helper lemmas -/

theorem optSum_eq (l : List (Option Nat)) :
    optSum l = if l.all Option.isSome then some ((l.map fun o => o.getD 0).sum) else none := by
  induction l with
  | nil => rfl
  | cons o t ih =>
    cases o with
    | none => rfl
    | some x =>
      have hx : optSum (some x :: t) = (optSum t).bind fun s => some (x + s) := rfl
      rw [hx, ih]
      by_cases h : t.all Option.isSome
      · simp [h]
      · simp [h]

theorem optSum_eq_none_of_mem {l : List (Option Nat)} (h : none ∈ l) : optSum l = none := by
  induction l with
  | nil => cases h
  | cons o t ih =>
    rcases List.mem_cons.mp h with h1 | h2
    · rw [← h1]; rfl
    · cases o with
      | none => rfl
      | some x =>
        have hx : optSum (some x :: t) = (optSum t).bind fun s => some (x + s) := rfl
        rw [hx, ih h2]
        rfl

theorem head?_filterMap_digits (w : List Char) :
    (w.filterMap charToDigit?).head? = (w.find? Char.isDigit).map fun ch => ch.toNat - 48 := by
  induction w with
  | nil => rfl
  | cons c t ih =>
    by_cases h : c.isDigit
    · rw [List.filterMap_cons]
      simp [charToDigit?, h]
    · rw [List.filterMap_cons]
      simp [charToDigit?, h, ih]

theorem getLast?_filterMap_digits (w : List Char) :
    (w.filterMap charToDigit?).getLast? =
      (w.reverse.find? Char.isDigit).map fun ch => ch.toNat - 48 := by
  rw [List.getLast?_eq_head?_reverse, ← List.filterMap_reverse]
  exact head?_filterMap_digits w.reverse

theorem collectE_map_ok {α : Type} (l : List α) :
    collectE (l.map Except.ok) = Except.ok l := by
  induction l with
  | nil => rfl
  | cons a t ih => simp [collectE, ih]

theorem collectE_error_of_mem {α : Type} {l : List (Except String α)} {e : String}
    (h : Except.error e ∈ l) : ∃ e2, collectE l = Except.error e2 := by
  induction l with
  | nil => cases h
  | cons x t ih =>
    cases x with
    | error e3 => exact ⟨e3, rfl⟩
    | ok b =>
      rcases List.mem_cons.mp h with h1 | h2
      · exact Except.noConfusion h1
      · obtain ⟨e2, he⟩ := ih h2
        exact ⟨e2, by simp [collectE, he]⟩

theorem takeWhile_ok_append (raws : List (List Char)) (h : ∀ r ∈ raws, r ≠ [])
    (e : String) (rest : List (Except String (List Char))) :
    ((raws.map Except.ok) ++ Except.error e :: rest).takeWhile takeLine = raws.map Except.ok := by
  induction raws with
  | nil => rfl
  | cons r t ih =>
    have hr : takeLine (Except.ok r) = true := by
      have hne : r ≠ [] := h r (List.mem_cons_self r t)
      cases r with
      | nil => exact absurd rfl hne
      | cons a as => rfl
    simp only [List.map_cons, List.cons_append, List.takeWhile_cons_of_pos hr]
    rw [ih fun x hx => h x (List.mem_cons_of_mem r hx)]

/-! ### Claim theorems (first group) -/

/-- Claim C3: on a line with at least one ASCII digit, `Calibration::value`
is ten times the first ASCII digit plus the last ASCII digit (spelled-out
digit words play no role); on a line with no ASCII digit it is `none`. -/
theorem calibration_value_spec (c : Calibration) :
    Calibration.value c =
      match c.raw.find? Char.isDigit, c.raw.reverse.find? Char.isDigit with
      | some f, some l => some (10 * (f.toNat - 48) + (l.toNat - 48))
      | _, _ => none := by
  simp only [Calibration.value, head?_filterMap_digits, getLast?_filterMap_digits]
  cases hf : c.raw.find? Char.isDigit <;> cases hl : c.raw.reverse.find? Char.isDigit <;>
    simp [hf, hl]

/-- Claim C4: each aggregate (`Trebuchet::value`, `Trebuchet::value2`) is
the sum of the per-calibration values when all are present, and `none` as
soon as at least one calibration's value is absent. -/
theorem trebuchet_aggregate_spec (t : Trebuchet) :
    (Trebuchet.value t =
      if t.calibrations.all (fun c => (Calibration.value c).isSome) then
        some ((t.calibrations.map fun c => (Calibration.value c).getD 0).sum)
      else none) ∧
    (Trebuchet.value2 t =
      if t.calibrations.all (fun c => (Calibration.value2 c).isSome) then
        some ((t.calibrations.map fun c => (Calibration.value2 c).getD 0).sum)
      else none) := by
  refine ⟨?_, ?_⟩ <;>
    simp [Trebuchet.value, Trebuchet.value2, optSum_eq, List.all_map, List.map_map,
      Function.comp_def]

/-- Claim C9: with zero records (empty stream or empty first line) the
aggregates are present and zero, not absent and not an error. -/
theorem empty_input_aggregates :
    Trebuchet.from_stdin [] = Except.ok ⟨[]⟩ ∧
    (∀ rest, Trebuchet.from_stdin (Except.ok [] :: rest) = Except.ok ⟨[]⟩) ∧
    Game.from_stdin [] = Except.ok [] ∧
    (∀ rest, Game.from_stdin (Except.ok [] :: rest) = Except.ok []) ∧
    Trebuchet.value ⟨[]⟩ = some 0 ∧ Trebuchet.value2 ⟨[]⟩ = some 0 ∧ part_one [] = 0 :=
  ⟨rfl, fun _ => rfl, rfl, fun _ => rfl, rfl, rfl, rfl⟩

/-- Claim C7 evidence: an I/O error before the first empty line is
swallowed by the `take_while` predicate (whose `unwrap_or_default()`
yields `false` on an `Err` line), so both readers return a successful
result built from the lines read so far instead of the I/O error. -/
theorem from_stdin_swallows_io_error (raws : List (List Char)) (h : ∀ r ∈ raws, r ≠ [])
    (e : String) (rest : List (Except String (List Char))) :
    Trebuchet.from_stdin ((raws.map Except.ok) ++ Except.error e :: rest) =
      Except.ok ⟨raws.map Calibration.from_raw⟩ ∧
    Game.from_stdin ((raws.map Except.ok) ++ Except.error e :: rest) =
      collectE (raws.map Game.from_str) := by
  constructor
  · simp only [Trebuchet.from_stdin, takeWhile_ok_append raws h e rest, collectE_map_ok]
  · simp only [Game.from_stdin, takeWhile_ok_append raws h e rest, collectE_map_ok]

theorem from_stdin_swallows_io_error_witness :
    (∀ r ∈ [("1abc2".toList)], r ≠ []) ∧
    Trebuchet.from_stdin [Except.ok ("1abc2".toList), Except.error "I/O error"] =
      Except.ok ⟨[Calibration.from_raw ("1abc2".toList)]⟩ :=
  ⟨by decide, (from_stdin_swallows_io_error ["1abc2".toList] (by decide) "I/O error" []).1⟩

/-- Claim C8 counterexample: on an input whose only line has no digit at
all, day 1's `main` completes normally (exit zero) printing the absent
values, and does not return an error. -/
theorem day1_main_no_digit_completes :
    day1_main [Except.ok ("abc".toList)] = Except.ok (none, none) ∧
    ∀ e, day1_main [Except.ok ("abc".toList)] ≠ Except.error e := by
  refine ⟨rfl, fun e h => ?_⟩
  rw [show day1_main [Except.ok ("abc".toList)] = Except.ok (none, none) from rfl] at h
  exact Except.noConfusion h

/-- Claim C8 amended: a calibration line with no digit makes the part-one
aggregate absent (`Trebuchet::value` is `none`), but the run still
completes normally: `main` prints the absent value and exits zero. -/
theorem day1_main_no_digit_absent (stdin : List (Except String (List Char))) (t : Trebuchet)
    (h1 : Trebuchet.from_stdin stdin = Except.ok t)
    (h2 : ∃ c ∈ t.calibrations, Calibration.value c = none) :
    day1_main stdin = Except.ok (none, Trebuchet.value2 t) := by
  have hv : Trebuchet.value t = none := by
    obtain ⟨c, hc, hnone⟩ := h2
    exact optSum_eq_none_of_mem (hnone ▸ List.mem_map_of_mem Calibration.value hc)
  simp only [day1_main, h1, hv]

theorem day1_main_no_digit_absent_witness :
    Trebuchet.from_stdin [Except.ok ("abc".toList)] = Except.ok ⟨[⟨"abc".toList⟩]⟩ ∧
    day1_main [Except.ok ("abc".toList)] =
      Except.ok (none, Trebuchet.value2 ⟨[⟨"abc".toList⟩]⟩) :=
  ⟨rfl, day1_main_no_digit_absent [Except.ok ("abc".toList)] ⟨[⟨"abc".toList⟩]⟩ rfl
    ⟨⟨"abc".toList⟩, by decide, by decide⟩⟩

theorem cube_possible_iff (cb : Cube) :
    Cube.is_possible cb (Cube.Red 12, Cube.Green 13, Cube.Blue 14) = true ↔
      cubeCount cb ≤ cubeCap cb := by
  cases cb <;> simp [Cube.is_possible, cubeCount, cubeCap]

/-- Claim C2: a game is possible under the fixed triple
(Red 12, Green 13, Blue 14) exactly when every draw of every cube set
stays within the capacity of its own color. -/
theorem game_is_possible_iff (g : Game) :
    Game.is_possible g (Cube.Red 12, Cube.Green 13, Cube.Blue 14) = true ↔
      ∀ cs ∈ g.cube_sets, ∀ cb ∈ cs.cubes, cubeCount cb ≤ cubeCap cb := by
  simp only [Game.is_possible, CubeSet.is_possible, List.all_eq_true, cube_possible_iff]

theorem game_is_possible_iff_witness :
    Game.is_possible ⟨1, [⟨[Cube.Blue 3, Cube.Red 4]⟩]⟩
      (Cube.Red 12, Cube.Green 13, Cube.Blue 14) = true :=
  (game_is_possible_iff ⟨1, [⟨[Cube.Blue 3, Cube.Red 4]⟩]⟩).mpr (by decide)

/-- Claim C5: `part_one` is the sum of the ids of the games judged
possible under the fixed capacity triple; a game judged not possible
contributes zero. -/
theorem part_one_spec (games : List Game) :
    part_one games = (games.map fun g =>
      if Game.is_possible g (Cube.Red 12, Cube.Green 13, Cube.Blue 14) = true then g.id
      else 0).sum := by
  unfold part_one
  induction games with
  | nil => rfl
  | cons g gs ih =>
    by_cases h : Game.is_possible g (Cube.Red 12, Cube.Green 13, Cube.Blue 14) = true
    · simp [List.filter_cons, h, ih]
    · simp [List.filter_cons, h, ih]

/-- Claim C10: `Game::from_str` does not check the `"Game "` keyword: if
the last space-separated token before the first `": "` parses as an
integer and the remainder parses as cube sets, parsing succeeds with that
integer as the id, whatever precedes the token. -/
theorem game_from_str_ignores_keyword (w tok rest : List Char) (n : Nat) (css : List CubeSet)
    (h1 : gameIdTok w = some tok) (h2 : parseUsize tok = Except.ok n)
    (h3 : gameRest w = some rest)
    (h4 : collectE ((strSplit ("; ".toList) rest).map CubeSet.from_str) = Except.ok css) :
    Game.from_str w = Except.ok ⟨n, css⟩ := by
  simp only [Game.from_str, h1, h2, h3, h4]

theorem game_from_str_ignores_keyword_witness :
    gameIdTok ("Blah blah 7: 1 red".toList) = some ("7".toList) ∧
    Game.from_str ("Blah blah 7: 1 red".toList) = Except.ok ⟨7, [⟨[Cube.Red 1]⟩]⟩ :=
  ⟨rfl, game_from_str_ignores_keyword ("Blah blah 7: 1 red".toList) ("7".toList)
    ("1 red".toList) 7 [⟨[Cube.Red 1]⟩] rfl rfl rfl rfl⟩

theorem cube_from_str_error_of_fails (cube : List Char) (h : cubeFails cube = true) :
    ∃ e, Cube.from_str cube = Except.error e := by
  unfold cubeFails at h
  rw [Bool.or_eq_true] at h
  cases hq : (strSplit [' '] cube).head? with
  | none => exact ⟨"Missing quantity of cube(s)!", by simp only [Cube.from_str, hq]⟩
  | some q =>
    cases hp : parseUsize q with
    | error e => exact ⟨e, by simp only [Cube.from_str, hq, hp]⟩
    | ok n =>
      cases hc : ((strSplit [' '] cube).drop 1).head? with
      | none => exact ⟨"Missing cube color!", by simp only [Cube.from_str, hq, hp, hc]⟩
      | some color =>
        have hcol : colorOk color = false := by
          rcases h with hA | hB
          · rw [hq] at hA
            simp at hA
            rw [hp] at hA
            simp [isOkB] at hA
          · rw [hc] at hB
            simpa using hB
        have h1 : ¬ color = "red".toList := fun hx => absurd (hx ▸ hcol) (by decide)
        have h2 : ¬ color = "green".toList := fun hx => absurd (hx ▸ hcol) (by decide)
        have h3 : ¬ color = "blue".toList := fun hx => absurd (hx ▸ hcol) (by decide)
        refine ⟨"Unknown cube color!", ?_⟩
        simp only [Cube.from_str, hq, hp, hc]
        rw [if_neg h1, if_neg h2, if_neg h3]

theorem cube_set_from_str_error_of_mem (cs cube : List Char)
    (hmem : cube ∈ strSplit (", ".toList) cs) (h : cubeFails cube = true) :
    ∃ e, CubeSet.from_str cs = Except.error e := by
  obtain ⟨e1, he1⟩ := cube_from_str_error_of_fails cube h
  obtain ⟨e2, he2⟩ := collectE_error_of_mem (he1 ▸ List.mem_map_of_mem Cube.from_str hmem)
  exact ⟨e2, by simp only [CubeSet.from_str, he2]⟩

/-- Claim C6: a parse failure at any level of the game grammar — missing
or malformed id token, missing revealed-cubes section, or a failing cube
fragment (missing or unparsable quantity, missing or unknown color) in
any cube set — makes `Game::from_str` return an error for the whole
record, never a partially parsed game. -/
theorem game_from_str_failure_aborts (w : List Char) (h : gameFails w = true) :
    ∃ e, Game.from_str w = Except.error e := by
  unfold gameFails at h
  rw [Bool.or_eq_true] at h
  cases hid : gameIdTok w with
  | none => exact ⟨"Missing game ID!", by simp only [Game.from_str, hid]⟩
  | some tok =>
    cases hp : parseUsize tok with
    | error e => exact ⟨e, by simp only [Game.from_str, hid, hp]⟩
    | ok n =>
      cases hr : gameRest w with
      | none => exact ⟨"Missing game revealed cubes!", by simp only [Game.from_str, hid, hp, hr]⟩
      | some rest =>
        have hany : ((strSplit ("; ".toList) rest).any fun cs =>
            (strSplit (", ".toList) cs).any cubeFails) = true := by
          rcases h with hA | hB
          · rw [hid] at hA
            simp at hA
            rw [hp] at hA
            simp [isOkB] at hA
          · rw [hr] at hB
            simpa using hB
        obtain ⟨cs, hcs, hcsany⟩ := List.any_eq_true.mp hany
        obtain ⟨cube, hcube, hfails⟩ := List.any_eq_true.mp hcsany
        obtain ⟨e1, he1⟩ := cube_set_from_str_error_of_mem cs cube hcube hfails
        obtain ⟨e2, he2⟩ :=
          collectE_error_of_mem (he1 ▸ List.mem_map_of_mem CubeSet.from_str hcs)
        exact ⟨e2, by simp only [Game.from_str, hid, hp, hr, he2]⟩

theorem game_from_str_failure_aborts_witness :
    gameFails ("Game 1: 3 turquoise".toList) = true ∧
    ∃ e, Game.from_str ("Game 1: 3 turquoise".toList) = Except.error e :=
  ⟨by decide, game_from_str_failure_aborts ("Game 1: 3 turquoise".toList) (by decide)⟩

theorem digitNames_ne_nil : ∀ p ∈ digitNames, p.1 ≠ [] := by decide

theorem isPrefixOf_nil_eq_false {name : List Char} (h : name ≠ []) :
    name.isPrefixOf ([] : List Char) = false := by
  cases name with
  | nil => exact absurd rfl h
  | cons a as => rfl

theorem findSub_cons_of_not_here {name : List Char} {c : Char} {t : List Char}
    (h : name.isPrefixOf (c :: t) = false) :
    findSub name (c :: t) = (findSub name t).map (· + 1) := by
  simp [findSub, h]

theorem findSub_of_here {name w : List Char} (hne : name ≠ [])
    (h : name.isPrefixOf w = true) : findSub name w = some 0 := by
  cases w with
  | nil => rw [isPrefixOf_nil_eq_false hne] at h; cases h
  | cons c t => simp [findSub, h]

theorem wordPairs_cons_of_no_tok (names : List (List Char × Nat)) (c : Char) (t : List Char)
    (h : ∀ p ∈ names, p.1.isPrefixOf (c :: t) = false) :
    wordPairs names (c :: t) = (wordPairs names t).map fun q => (q.1, q.2 + 1) := by
  induction names with
  | nil => rfl
  | cons p ps ih =>
    have hstep := findSub_cons_of_not_here (h p (List.mem_cons_self p ps))
    have ih' := ih fun q hq => h q (List.mem_cons_of_mem p hq)
    simp only [wordPairs, List.filterMap_cons] at ih' ⊢
    rw [hstep]
    cases hf : findSub p.1 t with
    | none => simpa [hf] using ih'
    | some i => simp [hf, ih']

theorem minByIdx_shift (l : List (Nat × Nat)) :
    minByIdx (l.map fun q => (q.1, q.2 + 1)) = (minByIdx l).map fun q => (q.1, q.2 + 1) := by
  induction l with
  | nil => rfl
  | cons p t ih =>
    simp only [List.map_cons, minByIdx, ih]
    cases hm : minByIdx t with
    | none => rfl
    | some q =>
      simp only [Option.map_some']
      by_cases hle : p.2 ≤ q.2
      · rw [if_pos hle, if_pos (Nat.add_le_add_right hle 1)]
        rfl
      · rw [if_neg hle, if_neg fun hc => hle (Nat.le_of_add_le_add_right hc)]
        rfl

theorem minByIdx_cons_isSome (p : Nat × Nat) (t : List (Nat × Nat)) :
    ∃ m, minByIdx (p :: t) = some m := by
  simp only [minByIdx]
  cases minByIdx t with
  | none => exact ⟨p, rfl⟩
  | some q =>
    by_cases hle : p.2 ≤ q.2
    · exact ⟨p, by show (if p.2 ≤ q.2 then some p else some q) = some p; rw [if_pos hle]⟩
    · exact ⟨q, by show (if p.2 ≤ q.2 then some p else some q) = some q; rw [if_neg hle]⟩

theorem minByIdx_le {l : List (Nat × Nat)} {m : Nat × Nat} (h : minByIdx l = some m) :
    ∀ x ∈ l, m.2 ≤ x.2 := by
  induction l generalizing m with
  | nil => cases h
  | cons p t ih =>
    cases hm : minByIdx t with
    | none =>
      simp only [minByIdx, hm] at h
      obtain rfl := Option.some.inj h
      intro x hx
      rcases List.mem_cons.mp hx with rfl | hx'
      · exact Nat.le_refl _
      · cases t with
        | nil => cases hx'
        | cons a s =>
          obtain ⟨m', hm'⟩ := minByIdx_cons_isSome a s
          rw [hm'] at hm
          cases hm
    | some q =>
      simp only [minByIdx, hm] at h
      by_cases hle : p.2 ≤ q.2
      · rw [if_pos hle] at h
        obtain rfl := Option.some.inj h
        intro x hx
        rcases List.mem_cons.mp hx with rfl | hx'
        · exact Nat.le_refl _
        · exact Nat.le_trans hle (ih hm x hx')
      · rw [if_neg hle] at h
        obtain rfl := Option.some.inj h
        intro x hx
        rcases List.mem_cons.mp hx with rfl | hx'
        · exact Nat.le_of_lt (Nat.gt_of_not_le hle)
        · exact ih hm x hx'

theorem exists_mem_of_findSome?_some {α β : Type} {l : List α} {f : α → Option β} {b : β}
    (w : l.findSome? f = some b) : ∃ a, a ∈ l ∧ f a = some b := by
  induction l with
  | nil => cases w
  | cons x t ih =>
    rw [List.findSome?_cons] at w
    cases hx : f x with
    | some y =>
      rw [hx] at w
      simp at w
      exact ⟨x, List.mem_cons_self x t, by rw [hx, w]⟩
    | none =>
      rw [hx] at w
      simp at w
      obtain ⟨a, ha, hfa⟩ := ih w
      exact ⟨a, List.mem_cons_of_mem x ha, hfa⟩


theorem wordPairs_min_of_tok (names : List (List Char × Nat)) (w : List Char) (d : Nat)
    (hne : ∀ p ∈ names, p.1 ≠ [])
    (h : names.findSome? (tokOf w) = some d) :
    (minByIdx (wordPairs names w)).map (fun q => q.1) = some d := by
  induction names with
  | nil => cases h
  | cons p ps ih =>
    cases hp : p.1.isPrefixOf w with
    | true =>
      have hsome : tokOf w p = some p.2 := by simp [tokOf, hp]
      rw [List.findSome?_cons_of_isSome ps (by rw [hsome]; rfl), hsome] at h
      obtain rfl : p.2 = d := Option.some.inj h
      have hfs : findSub p.1 w = some 0 :=
        findSub_of_here (hne p (List.mem_cons_self p ps)) hp
      have hlist : wordPairs (p :: ps) w = (p.2, 0) :: wordPairs ps w := by
        simp only [wordPairs, List.filterMap_cons, hfs, Option.map_some']
      rw [hlist]
      simp only [minByIdx]
      cases hm : minByIdx (wordPairs ps w) with
      | none => rfl
      | some q =>
        show Option.map (fun q => q.1)
          (if (p.2, (0 : Nat)).2 ≤ q.2 then some (p.2, 0) else some q) = some p.2
        rw [if_pos (Nat.zero_le q.2)]
        rfl
    | false =>
      have hnone : tokOf w p = none := by simp [tokOf, hp]
      rw [List.findSome?_cons_of_isNone ps (by rw [hnone]; rfl)] at h
      have ih' := ih (fun q hq => hne q (List.mem_cons_of_mem p hq)) h
      obtain ⟨p', hp'mem, hp'⟩ := exists_mem_of_findSome?_some h
      have hp'pre : p'.1.isPrefixOf w = true := by
        cases hbb : p'.1.isPrefixOf w with
        | true => rfl
        | false => simp [tokOf, hbb] at hp'
      have hp'd : p'.2 = d := by simpa [tokOf, hp'pre] using hp'
      have hmem0 : (d, 0) ∈ wordPairs ps w := by
        apply List.mem_filterMap.mpr
        refine ⟨p', hp'mem, ?_⟩
        rw [findSub_of_here (hne p' (List.mem_cons_of_mem p hp'mem)) hp'pre, hp'd]
        rfl
      obtain ⟨m, hm⟩ : ∃ m, minByIdx (wordPairs ps w) = some m := by
        cases hmm : minByIdx (wordPairs ps w) with
        | none => rw [hmm] at ih'; simp at ih'
        | some q => exact ⟨q, rfl⟩
      have hm1 : m.1 = d := by rw [hm] at ih'; simpa using ih'
      have hm2 : m.2 = 0 := Nat.le_antisymm (minByIdx_le hm (d, 0) hmem0) (Nat.zero_le m.2)
      cases hf : findSub p.1 w with
      | none =>
        have hlist : wordPairs (p :: ps) w = wordPairs ps w := by
          simp only [wordPairs, List.filterMap_cons, hf, Option.map_none']
        rw [hlist]
        exact ih'
      | some i =>
        have hlist : wordPairs (p :: ps) w = (p.2, i) :: wordPairs ps w := by
          simp only [wordPairs, List.filterMap_cons, hf, Option.map_some']
        have hi : 1 ≤ i := by
          cases w with
          | nil =>
            rw [isPrefixOf_nil_eq_false (hne p' (List.mem_cons_of_mem p hp'mem))] at hp'pre
            cases hp'pre
          | cons c tt =>
            rw [findSub_cons_of_not_here hp] at hf
            cases hj : findSub p.1 tt with
            | none => rw [hj] at hf; simp at hf
            | some j =>
              rw [hj] at hf
              simp at hf
              omega
        rw [hlist]
        simp only [minByIdx, hm]
        rw [if_neg (show ¬ (p.2, i).2 ≤ m.2 by omega)]
        simp [hm1]

theorem from_word_nil : from_word [] = none := by decide

theorem from_word_cons (c : Char) (t : List Char) :
    from_word (c :: t) = match tokHere (c :: t) with
      | some d => some d
      | none => from_word t := by
  cases h : tokHere (c :: t) with
  | some d => exact wordPairs_min_of_tok digitNames (c :: t) d digitNames_ne_nil h
  | none =>
    have hno : ∀ p ∈ digitNames, p.1.isPrefixOf (c :: t) = false := by
      intro p hp
      have hnp := (List.findSome?_eq_none_iff.mp h) p hp
      cases hb : p.1.isPrefixOf (c :: t) with
      | false => rfl
      | true => simp [tokOf, hb] at hnp
    unfold from_word
    rw [wordPairs_cons_of_no_tok digitNames c t hno, minByIdx_shift]
    cases minByIdx (wordPairs digitNames t) <;> rfl

theorem from_word_eq_firstTok : ∀ w : List Char, from_word w = firstTok w
  | [] => from_word_nil
  | c :: t => by
    rw [from_word_cons]
    cases h : tokHere (c :: t) with
    | some d => simp [firstTok, h]
    | none =>
      show from_word t = firstTok (c :: t)
      rw [from_word_eq_firstTok t]
      simp [firstTok, h]

theorem suffixes_cons (c : Char) (t : List Char) :
    suffixes (c :: t) = (c :: t) :: suffixes t := by
  unfold suffixes
  rw [List.length_cons, List.range_succ_eq_map]
  simp [List.map_map, Function.comp_def]

theorem head?_suffix_scan (w : List Char) :
    ((suffixes w).filterMap from_word).head? = firstTok w := by
  induction w with
  | nil => rfl
  | cons c t ih =>
    rw [suffixes_cons, List.filterMap_cons]
    cases h : from_word (c :: t) with
    | some d =>
      rw [from_word_cons] at h
      cases ht : tokHere (c :: t) with
      | some d2 =>
        rw [ht] at h
        replace h : some d2 = some d := h
        simp [firstTok, ht, Option.some.inj h]
      | none =>
        rw [ht] at h
        replace h : from_word t = some d := h
        simp [firstTok, ht, ← from_word_eq_firstTok, h]
    | none =>
      show (List.filterMap from_word (suffixes t)).head? = firstTok (c :: t)
      rw [ih]
      rw [from_word_cons] at h
      cases ht : tokHere (c :: t) with
      | some d =>
        rw [ht] at h
        replace h : some d = none := h
        cases h
      | none =>
        rw [ht] at h
        simp [firstTok, ht]

theorem lastTok_eq_none_iff : ∀ w : List Char, lastTok w = none ↔ firstTok w = none
  | [] => Iff.rfl
  | c :: t => by
    have ih := lastTok_eq_none_iff t
    constructor
    · intro h
      cases hl : lastTok t with
      | some d =>
        simp only [lastTok] at h
        rw [hl] at h
        replace h : some d = none := h
        cases h
      | none =>
        simp only [lastTok] at h
        rw [hl] at h
        replace h : tokHere (c :: t) = none := h
        simp [firstTok, h, ih.mp hl]
    · intro h
      cases ht : tokHere (c :: t) with
      | some d =>
        simp only [firstTok] at h
        rw [ht] at h
        replace h : some d = none := h
        cases h
      | none =>
        simp only [firstTok] at h
        rw [ht] at h
        replace h : firstTok t = none := h
        simp only [lastTok]
        rw [ih.mpr h]
        exact ht

theorem getLast?_suffix_scan (w : List Char) :
    ((suffixes w).filterMap from_word).getLast? = lastTok w := by
  induction w with
  | nil => rfl
  | cons c t ih =>
    rw [suffixes_cons, List.filterMap_cons]
    cases h : from_word (c :: t) with
    | none =>
      rw [from_word_cons] at h
      cases ht : tokHere (c :: t) with
      | some d =>
        rw [ht] at h
        replace h : some d = none := h
        cases h
      | none =>
        rw [ht] at h
        replace h : from_word t = none := h
        have hft : firstTok t = none := by rw [← from_word_eq_firstTok]; exact h
        have hlt : lastTok t = none := (lastTok_eq_none_iff t).mpr hft
        show (List.filterMap from_word (suffixes t)).getLast? = lastTok (c :: t)
        rw [ih, hlt]
        simp only [lastTok]
        rw [hlt]
        exact ht.symm
    | some d =>
      cases hrest : (suffixes t).filterMap from_word with
      | nil =>
        have hft : firstTok t = none := by
          rw [← head?_suffix_scan t, hrest]
          rfl
        have hlt : lastTok t = none := (lastTok_eq_none_iff t).mpr hft
        rw [from_word_cons] at h
        cases ht : tokHere (c :: t) with
        | none =>
          rw [ht] at h
          replace h : from_word t = some d := h
          rw [from_word_eq_firstTok, hft] at h
          cases h
        | some d2 =>
          rw [ht] at h
          replace h : some d2 = some d := h
          have hgoal : lastTok (c :: t) = some d := by
            simp only [lastTok]
            rw [hlt]
            show tokHere (c :: t) = some d
            rw [ht, Option.some.inj h]
          rw [hgoal]
          rfl
      | cons x xs =>
        have h1 : firstTok t ≠ none := by
          rw [← head?_suffix_scan t, hrest]
          simp
        have h2 : lastTok t ≠ none := fun hh => h1 ((lastTok_eq_none_iff t).mp hh)
        obtain ⟨d', hd'⟩ := Option.ne_none_iff_exists'.mp h2
        rw [hrest] at ih
        show (d :: x :: xs).getLast? = lastTok (c :: t)
        rw [List.getLast?_cons_cons, ih]
        simp only [lastTok]
        rw [hd']

theorem head?_tokenScan : ∀ w : List Char, (tokenScan w).head? = firstTok w
  | [] => rfl
  | c :: t => by
    simp only [tokenScan, firstTok]
    cases ht : tokHere (c :: t) with
    | some d => rfl
    | none => exact head?_tokenScan t

theorem getLast?_tokenScan : ∀ w : List Char, (tokenScan w).getLast? = lastTok w
  | [] => rfl
  | c :: t => by
    simp only [tokenScan]
    cases ht : tokHere (c :: t) with
    | none =>
      show (tokenScan t).getLast? = lastTok (c :: t)
      rw [getLast?_tokenScan t]
      cases hl : lastTok t with
      | some d =>
        simp only [lastTok]
        rw [hl]
      | none =>
        simp only [lastTok]
        rw [hl]
        exact ht.symm
    | some d =>
      cases hts : tokenScan t with
      | nil =>
        have h1 : firstTok t = none := by rw [← head?_tokenScan t, hts]; rfl
        have h2 : lastTok t = none := (lastTok_eq_none_iff t).mpr h1
        simp only [lastTok]
        rw [h2]
        show [d].getLast? = tokHere (c :: t)
        rw [ht]
        rfl
      | cons x xs =>
        have h1 : firstTok t ≠ none := by
          rw [← head?_tokenScan t, hts]
          simp
        have h2 : lastTok t ≠ none := fun hh => h1 ((lastTok_eq_none_iff t).mp hh)
        obtain ⟨d', hd'⟩ := Option.ne_none_iff_exists'.mp h2
        show (d :: x :: xs).getLast? = lastTok (c :: t)
        rw [List.getLast?_cons_cons, ← hts, getLast?_tokenScan t]
        simp only [lastTok]
        rw [hd']

/-- Claim C1: `Calibration::value2` combines, as `10 * first + last`, the
digit whose token (`'1'..'9'` or `'one'..'nine'`) starts earliest in the
line and the digit whose token starts latest, detecting both members of
overlapping spellings; in particular it yields 83 on "eightwothree" and
14 on "zoneight234". -/
theorem value2_matches_token_spec :
    (∀ c : Calibration, Calibration.value2 c = value2Spec c.raw) ∧
    Calibration.value2 ⟨"eightwothree".toList⟩ = some 83 ∧
    Calibration.value2 ⟨"zoneight234".toList⟩ = some 14 := by
  refine ⟨fun c => ?_, by decide, by decide⟩
  simp only [Calibration.value2, value2Spec, head?_suffix_scan, getLast?_suffix_scan,
    head?_tokenScan, getLast?_tokenScan]
